/-
  Verification of the oommf-llb two-lattice extension modules.

  Shallow embedding of the computational kernels of
    yy_2latexchange6ngbr.cc  (exchange energy/field kernel, coefficient
                              matrix construction, equilibrium solver,
                              max-spin-angle finalize),
    yy_llbeulerevolve.cc     (stochastic LLB Euler evolver: derivative
                              evaluation, thermal-field caching, adaptive
                              step control),
    yy_2latdriver.cc         (driver: Ms2 reciprocal construction,
                              stage/run completion queries).

  Machine reals (OC_REAL8m) are modelled as exact rationals; transcendental
  host functions (sqrt, asin, the Langevin function and its derivative,
  Gaussian draws) are abstract function parameters, since the verified
  claims only depend on the control structure around them.  Host-framework
  collaborators (the region atlas, Nb_Atof parsing, scalar-field fills)
  are likewise abstract parameters, matching the spec's external-interface
  boundary.
-/
import Mathlib

/-! ## Three-component vectors

`ThreeVector` of the OOMMF framework, with exact rational components.
Modelled as an iterated product so that the Mathlib module structure on
products provides `+`, `-`, `•`, `0`. -/

abbrev Vec3 : Type := ℚ × ℚ × ℚ

/-- Dot product `a.x*b.x + a.y*b.y + a.z*b.z` (ThreeVector `operator*`). -/
def vdot (a b : Vec3) : ℚ :=
  a.1 * b.1 + a.2.1 * b.2.1 + a.2.2 * b.2.2

/-- Cross product (ThreeVector `operator^`). -/
def vcross (a b : Vec3) : Vec3 :=
  (a.2.1 * b.2.2 - a.2.2 * b.2.1,
   a.2.2 * b.1 - a.1 * b.2.2,
   a.1 * b.2.1 - a.2.1 * b.1)

/-! ## Exchange kernel: `YY_2LatExchange6Ngbr::CalcEnergyA`

The kernel walks cells of an `xdim × ydim × zdim` rectangular mesh.  For a
cell at coordinates `(x,y,z)` the flat index is `i = x + xdim*y +
xdim*ydim*z`; index arithmetic is done in `ℤ`, exactly as the signed
`OC_INDEX` arithmetic of the source.  Per-cell data (spin, inverse Ms,
region id) are total functions of the flat index. -/

/-- Rectangular mesh geometry: dimensions, periodicity flags, edge lengths. -/
structure MeshGeom where
  xdim : ℕ
  ydim : ℕ
  zdim : ℕ
  xper : Bool
  yper : Bool
  zper : Bool
  ex : ℚ
  ey : ℚ
  ez : ℚ

/-- Axis weight `wgtx = -1.0/(EdgeLengthX()*EdgeLengthX())`. -/
def MeshGeom.wgtx (g : MeshGeom) : ℚ := -1 / (g.ex * g.ex)

/-- Axis weight `wgty = -1.0/(EdgeLengthY()*EdgeLengthY())`. -/
def MeshGeom.wgty (g : MeshGeom) : ℚ := -1 / (g.ey * g.ey)

/-- Axis weight `wgtz = -1.0/(EdgeLengthZ()*EdgeLengthZ())`. -/
def MeshGeom.wgtz (g : MeshGeom) : ℚ := -1 / (g.ez * g.ez)

/-- Per-cell inputs to `CalcEnergyA` for the sublattice being processed:
spin field, inverse saturation magnetization, region map, and the
coefficient row lookup `coefA[region_id[i]][region_id[j]]`. -/
structure ExchEnv where
  spinA : ℤ → Vec3
  msAinv : ℤ → ℚ
  region : ℤ → ℕ
  coefA : ℕ → ℕ → ℚ

/-- Flat cell index `i = x + xdim*y + xdim*ydim*z` of cell `(x,y,z)`. -/
def cellIndex (g : MeshGeom) (x y z : ℕ) : ℤ :=
  (x : ℤ) + (g.xdim : ℤ) * y + (g.xdim : ℤ) * (g.ydim : ℤ) * z

/-- The six-neighbour difference sum of `CalcEnergyA` (source lines
592-648), with the guards written exactly as in the code: the three
negative directions require `ApairA != 0 && MsA_inverse[j] != 0`, the
three positive directions require only `MsA_inverse[j] != 0`. -/
def ngbrSumCode (g : MeshGeom) (e : ExchEnv) (x y z : ℕ) : Vec3 :=
  let xydim : ℤ := (g.xdim : ℤ) * g.ydim
  let xyzdim : ℤ := (g.xdim : ℤ) * g.ydim * g.zdim
  let i := cellIndex g x y z
  let base := e.spinA i
  let rowA := e.coefA (e.region i)
  let s0 : Vec3 := 0
  let s1 :=
    if 0 < z ∨ g.zper = true then
      let j := i - xydim + (if z = 0 then xyzdim else 0)
      let ap := rowA (e.region j)
      if ap ≠ 0 ∧ e.msAinv j ≠ 0 then
        s0 + (ap * g.wgtz) • (e.spinA j - base)
      else s0
    else s0
  let s2 :=
    if 0 < y ∨ g.yper = true then
      let j := i - g.xdim + (if y = 0 then xydim else 0)
      let ap := rowA (e.region j)
      if ap ≠ 0 ∧ e.msAinv j ≠ 0 then
        s1 + (ap * g.wgty) • (e.spinA j - base)
      else s1
    else s1
  let s3 :=
    if 0 < x ∨ g.xper = true then
      let j := i - 1 + (if x = 0 then (g.xdim : ℤ) else 0)
      let ap := rowA (e.region j)
      if ap ≠ 0 ∧ e.msAinv j ≠ 0 then
        s2 + (ap * g.wgtx) • (e.spinA j - base)
      else s2
    else s2
  let s4 :=
    if x < g.xdim - 1 ∨ g.xper = true then
      let j := i + 1 - (if x = g.xdim - 1 then (g.xdim : ℤ) else 0)
      let ap := rowA (e.region j)
      if e.msAinv j ≠ 0 then s3 + (ap * g.wgtx) • (e.spinA j - base) else s3
    else s3
  let s5 :=
    if y < g.ydim - 1 ∨ g.yper = true then
      let j := i + g.xdim - (if y = g.ydim - 1 then xydim else 0)
      let ap := rowA (e.region j)
      if e.msAinv j ≠ 0 then s4 + (ap * g.wgty) • (e.spinA j - base) else s4
    else s4
  if z < g.zdim - 1 ∨ g.zper = true then
    let j := i + xydim - (if z = g.zdim - 1 then xyzdim else 0)
    let ap := rowA (e.region j)
    if e.msAinv j ≠ 0 then s5 + (ap * g.wgtz) • (e.spinA j - base) else s5
  else s5

/-- The same six-direction sum with a uniform inclusion rule: a neighbour
`j` contributes `coef * wgt * (spin[j] - spin[i])` exactly when it exists
(interior or periodic-adjacent) and its inverse Ms is nonzero.  This is
the sum the spec describes; `ngbrSumCode` additionally skips zero
coefficients in the negative directions, which cannot change the value. -/
def ngbrSumSpec (g : MeshGeom) (e : ExchEnv) (x y z : ℕ) : Vec3 :=
  let xydim : ℤ := (g.xdim : ℤ) * g.ydim
  let xyzdim : ℤ := (g.xdim : ℤ) * g.ydim * g.zdim
  let i := cellIndex g x y z
  let base := e.spinA i
  let rowA := e.coefA (e.region i)
  let jmz := i - xydim + (if z = 0 then xyzdim else 0)
  let jmy := i - g.xdim + (if y = 0 then xydim else 0)
  let jmx := i - 1 + (if x = 0 then (g.xdim : ℤ) else 0)
  let jpx := i + 1 - (if x = g.xdim - 1 then (g.xdim : ℤ) else 0)
  let jpy := i + g.xdim - (if y = g.ydim - 1 then xydim else 0)
  let jpz := i + xydim - (if z = g.zdim - 1 then xyzdim else 0)
  (if (0 < z ∨ g.zper = true) ∧ e.msAinv jmz ≠ 0 then
     (rowA (e.region jmz) * g.wgtz) • (e.spinA jmz - base) else 0)
  + (if (0 < y ∨ g.yper = true) ∧ e.msAinv jmy ≠ 0 then
     (rowA (e.region jmy) * g.wgty) • (e.spinA jmy - base) else 0)
  + (if (0 < x ∨ g.xper = true) ∧ e.msAinv jmx ≠ 0 then
     (rowA (e.region jmx) * g.wgtx) • (e.spinA jmx - base) else 0)
  + (if (x < g.xdim - 1 ∨ g.xper = true) ∧ e.msAinv jpx ≠ 0 then
     (rowA (e.region jpx) * g.wgtx) • (e.spinA jpx - base) else 0)
  + (if (y < g.ydim - 1 ∨ g.yper = true) ∧ e.msAinv jpy ≠ 0 then
     (rowA (e.region jpy) * g.wgty) • (e.spinA jpy - base) else 0)
  + (if (z < g.zdim - 1 ∨ g.zper = true) ∧ e.msAinv jpz ≠ 0 then
     (rowA (e.region jpz) * g.wgtz) • (e.spinA jpz - base) else 0)

/-- Per-cell outputs of `CalcEnergyA`: energy density, effective field,
torque `m × H` (source lines 574-663).  `hcoef = -2/MU0` is passed in as
the exact rational the caller computes. -/
def calcEnergyACell (g : MeshGeom) (e : ExchEnv) (hcoef : ℚ) (x y z : ℕ) :
    ℚ × Vec3 × Vec3 :=
  let i := cellIndex g x y z
  let base := e.spinA i
  let msii1 := e.msAinv i
  if msii1 = 0 then (0, 0, 0)
  else
    let sum := ngbrSumCode g e x y z
    let ei := base.1 * sum.1 + base.2.1 * sum.2.1 + base.2.2 * sum.2.2
    let hmult := hcoef * msii1
    let h := hmult • sum
    (ei, h, (base.2.1 * h.2.2 - base.2.2 * h.2.1,
             base.2.2 * h.1 - base.1 * h.2.2,
             base.1 * h.2.1 - base.2.1 * h.1))

/-! ### C1 support lemmas -/

/-- A negative-direction step of the kernel loop: skipping the term when
the pair coefficient is zero agrees with always adding the (then zero)
term, provided the neighbour's inverse Ms is the only spec-side guard. -/
lemma exchStepNeg (s : Vec3) (present : Prop) [Decidable present]
    (ap w ms : ℚ) (d : Vec3) :
    (if present then (if ap ≠ 0 ∧ ms ≠ 0 then s + (ap * w) • d else s) else s)
      = s + (if present ∧ ms ≠ 0 then (ap * w) • d else 0) := by
  by_cases hp : present
  · by_cases hms : ms = 0
    · simp [hp, hms]
    · by_cases hap : ap = 0
      · simp [hp, hms, hap]
      · simp [hp, hms, hap]
  · simp [hp]

/-- A positive-direction step of the kernel loop, same reassociation. -/
lemma exchStepPos (s : Vec3) (present : Prop) [Decidable present]
    (ap w ms : ℚ) (d : Vec3) :
    (if present then (if ms ≠ 0 then s + (ap * w) • d else s) else s)
      = s + (if present ∧ ms ≠ 0 then (ap * w) • d else 0) := by
  by_cases hp : present
  · by_cases hms : ms = 0
    · simp [hp, hms]
    · simp [hp, hms]
  · simp [hp]

/-- The code's neighbour sum equals the spec's uniform-guard sum. -/
lemma ngbrSumCode_eq_spec (g : MeshGeom) (e : ExchEnv) (x y z : ℕ) :
    ngbrSumCode g e x y z = ngbrSumSpec g e x y z := by
  simp only [ngbrSumCode, ngbrSumSpec]
  rw [exchStepPos, exchStepPos, exchStepPos, exchStepNeg, exchStepNeg,
    exchStepNeg, zero_add]

/-- One spec-side direction term depends on the spin field only through
cells of nonzero inverse Ms. -/
lemma exchDirCongr (c : Prop) [Decidable c] (ms q : ℚ) (u v u' v' : Vec3)
    (hu : ms ≠ 0 → u = u') (hv : v = v') :
    (if c ∧ ms ≠ 0 then q • (u - v) else 0)
      = (if c ∧ ms ≠ 0 then q • (u' - v') else 0) := by
  by_cases h : c ∧ ms ≠ 0
  · rw [if_pos h, if_pos h, hu h.2, hv]
  · rw [if_neg h, if_neg h]

/-- Neighbour sums of environments that differ only in their spin field
agree whenever the two spin fields agree on every cell of nonzero inverse
Ms (and the centre cell has nonzero inverse Ms). -/
lemma ngbrSumCode_spin_congr (g : MeshGeom) (e : ExchEnv) (x y z : ℕ)
    (s s' : ℤ → Vec3) (hs : ∀ j, e.msAinv j ≠ 0 → s j = s' j)
    (hi : e.msAinv (cellIndex g x y z) ≠ 0) :
    ngbrSumCode g { e with spinA := s } x y z
      = ngbrSumCode g { e with spinA := s' } x y z := by
  rw [ngbrSumCode_eq_spec, ngbrSumCode_eq_spec]
  simp only [ngbrSumSpec]
  rw [exchDirCongr _ _ _ _ _ (s' _) (s' _) (hs _) (hs _ hi),
    exchDirCongr _ _ _ _ _ (s' _) (s' _) (hs _) (hs _ hi),
    exchDirCongr _ _ _ _ _ (s' _) (s' _) (hs _) (hs _ hi),
    exchDirCongr _ _ _ _ _ (s' _) (s' _) (hs _) (hs _ hi),
    exchDirCongr _ _ _ _ _ (s' _) (s' _) (hs _) (hs _ hi),
    exchDirCongr _ _ _ _ _ (s' _) (s' _) (hs _) (hs _ hi)]

/-- C1.  In `YY_2LatExchange6Ngbr::CalcEnergyA`: (a) a cell whose inverse
saturation magnetization is zero gets energy density, effective field and
torque all exactly zero; (b) for any cell, the neighbour-difference sum
computed by the code equals the sum that includes a neighbour exactly when
it exists and has nonzero inverse Ms (so zero-Ms neighbours are excluded,
and the extra zero-coefficient skip on the negative directions is
value-irrelevant); (c) the sum of a cell with nonzero inverse Ms does not
depend on the spin stored at any zero-inverse-Ms cell: a zero-Ms cell
contributes no coupling to any neighbour's sum. -/
theorem calcEnergyA_zeroMs_skip_and_exclude (g : MeshGeom) (e : ExchEnv)
    (hcoef : ℚ) (x y z : ℕ) :
    (e.msAinv (cellIndex g x y z) = 0 →
      calcEnergyACell g e hcoef x y z = (0, 0, 0))
    ∧ ngbrSumCode g e x y z = ngbrSumSpec g e x y z
    ∧ (∀ s s' : ℤ → Vec3, (∀ j, e.msAinv j ≠ 0 → s j = s' j) →
        e.msAinv (cellIndex g x y z) ≠ 0 →
        ngbrSumCode g { e with spinA := s } x y z
          = ngbrSumCode g { e with spinA := s' } x y z) := by
  refine ⟨fun h => ?_, ngbrSumCode_eq_spec g e x y z,
    fun s s' hs hi => ngbrSumCode_spin_congr g e x y z s s' hs hi⟩
  simp only [calcEnergyACell, h, if_pos]

/-- Concrete one-cell mesh used by the C1 witness. -/
def wGeomC1 : MeshGeom := ⟨1, 1, 1, false, false, false, 1, 1, 1⟩

/-- Concrete inverse-Ms field: nonzero only at cell 0. -/
def wMsC1 : ℤ → ℚ := fun j => if j = 0 then 1 else 0

/-- Concrete exchange environment for the C1 witness. -/
def wEnvC1 : ExchEnv := ⟨fun _ => 0, wMsC1, fun _ => 0, fun _ _ => 1⟩

/-- A spin field for the C1 witness. -/
def wSpinC1a : ℤ → Vec3 := fun j => if j = 0 then (0, 0, 1) else (1, 0, 0)

/-- A second spin field, agreeing with `wSpinC1a` only at cell 0 (the one
cell of nonzero inverse Ms). -/
def wSpinC1b : ℤ → Vec3 := fun j => if j = 0 then (0, 0, 1) else (0, 1, 0)

/-- Witness for C1 at a concrete one-cell mesh: the zero-Ms conjunct at a
cell with `Ms_inverse = 0`, and the spin-independence conjunct for two
spin fields that agree exactly on the nonzero-inverse-Ms cells. -/
theorem calcEnergyA_zeroMs_skip_and_exclude_witness :
    calcEnergyACell wGeomC1 { wEnvC1 with msAinv := fun _ => 0 } 1 0 0 0
      = (0, 0, 0)
    ∧ ngbrSumCode wGeomC1 { wEnvC1 with spinA := wSpinC1a } 0 0 0
      = ngbrSumCode wGeomC1 { wEnvC1 with spinA := wSpinC1b } 0 0 0 := by
  constructor
  · exact (calcEnergyA_zeroMs_skip_and_exclude wGeomC1
      { wEnvC1 with msAinv := fun _ => 0 } 1 0 0 0).1 rfl
  · refine (calcEnergyA_zeroMs_skip_and_exclude wGeomC1 wEnvC1 1 0 0 0).2.2
      wSpinC1a wSpinC1b (fun j h => ?_) (by decide)
    by_cases hj : j = 0
    · simp [wSpinC1a, wSpinC1b, hj]
    · exact absurd (by simp [wEnvC1, wMsC1, hj]) h

/-! ## Evolver derivative: `YY_LLBEulerEvolve::Calculate_dm_dt`

Embedding of the per-cell derivative computation (source lines 369-427)
and the fixed-spin zeroing loop that follows it (lines 432-437).  The
member arrays consumed by the routine (`alpha_t`, `alpha_l`, `gamma`, the
cached thermal fields, the induced-drift constants) and the fixed-spin
list are inputs of the model. -/

/-- Inputs of one `Calculate_dm_dt` invocation. -/
structure DmDtEnv where
  Ms : ℕ → ℚ
  Ms_inverse : ℕ → ℚ
  spin : ℕ → Vec3
  mxH : ℕ → Vec3
  total_field : ℕ → Vec3
  hFluct_t : ℕ → Vec3
  hFluct_l : ℕ → Vec3
  alpha_t : ℕ → ℚ
  alpha_l : ℕ → ℚ
  gamma : ℕ → ℚ
  inducedDriftConst_t : ℕ → ℚ
  inducedDriftConst_l : ℕ → ℚ
  do_precess : Bool
  ito_calculus : Bool
  fixed : List ℕ

/-- Transverse derivative of cell `i` before the fixed-spin loop:
precession `-|γ| m×(H+hFluct_t)`, damping `-α_t ((m×(H+hFluct_t))×m)`,
and (outside Ito calculus) the induced-drift term. -/
def dm_dt_t_cell (E : DmDtEnv) (i : ℕ) : Vec3 :=
  if E.Ms i = 0 then 0
  else
    let scratch0 := (-E.gamma i) • E.mxH i
    let dm_fluct := (-E.gamma i) • vcross (E.spin i) (E.hFluct_t i)
    let scratch1 := scratch0 + dm_fluct
    let t0 : Vec3 := if E.do_precess then scratch1 else 0
    let scratch2 := (-E.alpha_t i) • vcross scratch1 (E.spin i)
    let t1 := t0 + scratch2
    if E.ito_calculus then t1
    else t1 + (E.inducedDriftConst_t i * E.Ms_inverse i) • E.spin i

/-- Longitudinal derivative of cell `i` before the fixed-spin loop:
`γ·α_l·(m·(H+hFluct_l))·m` plus (outside Ito calculus) the longitudinal
induced-drift term. -/
def dm_dt_l_cell (E : DmDtEnv) (i : ℕ) : Vec3 :=
  if E.Ms i = 0 then 0
  else
    let l0 : Vec3 := 0
    let temp := vdot (E.spin i) (E.total_field i + E.hFluct_l i)
      * (E.gamma i * E.alpha_l i)
    let l1 := l0 + temp • E.spin i
    if E.ito_calculus then l1
    else l1 + (E.inducedDriftConst_l i * E.Ms_inverse i) • E.spin i

/-- Transverse channel after the fixed-spin loop (source lines 432-437):
the loop overwrites `dm_dt_t_[GetFixedSpin(j)]` with zero. -/
def dm_dt_t_final (E : DmDtEnv) : ℕ → Vec3 :=
  fun i => if i ∈ E.fixed then 0 else dm_dt_t_cell E i

/-- Longitudinal channel after the fixed-spin loop: the loop does not
touch `dm_dt_l_`, so the channel is exactly the per-cell value. -/
def dm_dt_l_final (E : DmDtEnv) : ℕ → Vec3 :=
  fun i => dm_dt_l_cell E i

/-- Concrete `Calculate_dm_dt` input on which cell 0 is a fixed spin with
a nonzero longitudinal derivative: unit spin along z, total field along z,
`γ = α_l = 1`, Ito calculus (no drift terms), no thermal field. -/
def cEnvC4 : DmDtEnv :=
  { Ms := fun _ => 1
    Ms_inverse := fun _ => 1
    spin := fun _ => (0, 0, 1)
    mxH := fun _ => 0
    total_field := fun _ => (0, 0, 1)
    hFluct_t := fun _ => 0
    hFluct_l := fun _ => 0
    alpha_t := fun _ => 1
    alpha_l := fun _ => 1
    gamma := fun _ => 1
    inducedDriftConst_t := fun _ => 0
    inducedDriftConst_l := fun _ => 0
    do_precess := true
    ito_calculus := true
    fixed := [0] }

/-- C4 counterexample.  On `cEnvC4`, cell 0 is in the fixed-spin list and
its transverse derivative is zeroed, but its longitudinal derivative at
the end of `Calculate_dm_dt` is `(0,0,1) ≠ 0`: the fixed-spin loop zeroes
only `dm_dt_t_`, refuting the claim that both channels are zeroed. -/
theorem fixedSpin_longitudinal_not_zeroed :
    0 ∈ cEnvC4.fixed ∧ dm_dt_t_final cEnvC4 0 = 0
      ∧ dm_dt_l_final cEnvC4 0 = (0, 0, 1)
      ∧ dm_dt_l_final cEnvC4 0 ≠ 0 := by
  have h3 : dm_dt_l_final cEnvC4 0 = (0, 0, 1) := by
    simp [dm_dt_l_final, dm_dt_l_cell, cEnvC4, vdot]
  refine ⟨by simp [cEnvC4], by simp [dm_dt_t_final, cEnvC4], h3, ?_⟩
  rw [h3]
  intro h
  have h22 := congrArg (fun v : Vec3 => v.2.2) h
  norm_num at h22

/-- C4 amended.  At the end of `Calculate_dm_dt` every fixed-spin cell has
zero transverse derivative (the zeroing is applied after all other
per-cell computation), while the longitudinal channel is left exactly as
computed for every cell. -/
theorem fixedSpin_zeroes_transverse_only (E : DmDtEnv) (i : ℕ) :
    (i ∈ E.fixed → dm_dt_t_final E i = 0)
      ∧ dm_dt_l_final E i = dm_dt_l_cell E i := by
  exact ⟨fun h => by simp [dm_dt_t_final, h], rfl⟩

/-- Witness for the amended C4 at the concrete input `cEnvC4`, cell 0. -/
theorem fixedSpin_zeroes_transverse_only_witness :
    dm_dt_t_final cEnvC4 0 = 0 :=
  (fixedSpin_zeroes_transverse_only cEnvC4 0).1 (by simp [cEnvC4])

/-! ## Thermal-field caching in `Calculate_dm_dt`

Embedding of source lines 343-367 and 429-430: the Gaussian thermal
fields `hFluct_t`, `hFluct_l` are regenerated only when the incremented
iteration count exceeds `iteration_Tcalculated`, which is then set to the
incremented count.  The Box-Muller generator is abstracted as a stream
`gauss : ℕ → ℚ` consumed sequentially; the number of samples consumed so
far is part of the state, so "no new draws" is "`draws` unchanged". -/

/-- Fixed per-call context for thermal-field generation. -/
structure ThermEnv where
  size : ℕ
  gauss : ℕ → ℚ
  sqrtQ : ℚ → ℚ
  hFluctVarConst_t : ℕ → ℚ
  hFluctVarConst_l : ℕ → ℚ
  Ms : ℕ → ℚ
  Ms_inverse : ℕ → ℚ
  fixed_timestep : ℚ

/-- Mutable evolver members touched by the thermal-field block. -/
structure ThermSt where
  iteration_Tcalculated : ℕ
  draws : ℕ
  hFluct_t : ℕ → Vec3
  hFluct_l : ℕ → Vec3

/-- Standard deviation `hFluctSigma_t = sqrt(hFluctVarConst_t[i]*Ms_inverse[i]/fixed_timestep)`. -/
def hFluctSigma_t (env : ThermEnv) (i : ℕ) : ℚ :=
  env.sqrtQ (env.hFluctVarConst_t i * env.Ms_inverse i / env.fixed_timestep)

/-- Standard deviation `hFluctSigma_l = sqrt(hFluctVarConst_l[i]*Ms_inverse[i]/fixed_timestep)`. -/
def hFluctSigma_l (env : ThermEnv) (i : ℕ) : ℚ :=
  env.sqrtQ (env.hFluctVarConst_l i * env.Ms_inverse i / env.fixed_timestep)

/-- Regeneration of the thermal field at one cell: six sequential
Gaussian draws when `Ms[i] != 0`, nothing otherwise. -/
def regenCell (env : ThermEnv) (st : ThermSt) (i : ℕ) : ThermSt :=
  if env.Ms i ≠ 0 then
    let sigt := hFluctSigma_t env i
    let sigl := hFluctSigma_l env i
    let k := st.draws
    { st with
      draws := k + 6
      hFluct_t := Function.update st.hFluct_t i
        (sigt * env.gauss k, sigt * env.gauss (k+1), sigt * env.gauss (k+2))
      hFluct_l := Function.update st.hFluct_l i
        (sigl * env.gauss (k+3), sigl * env.gauss (k+4), sigl * env.gauss (k+5)) }
  else st

/-- The regeneration loop over all cells. -/
def regenAll (env : ThermEnv) (st : ThermSt) : ThermSt :=
  (List.range env.size).foldl (regenCell env) st

/-- The thermal-field block of `Calculate_dm_dt`: regenerate iff
`iteration_now > iteration_Tcalculated`, then record
`iteration_Tcalculated = iteration_now` (source lines 305, 343-367, 430). -/
def calcThermal (env : ThermEnv) (st : ThermSt) (iteration_count : ℕ) : ThermSt :=
  let iteration_now := iteration_count + 1
  let st1 := if st.iteration_Tcalculated < iteration_now then regenAll env st else st
  { st1 with iteration_Tcalculated := iteration_now }

/-- C7.  Thermal fluctuation fields are generated at most once per
distinct iteration count: the block records the incremented iteration
count as the marker; it draws nothing (fields and draw counter unchanged)
when the incremented count does not exceed the marker; and a second call
for the same iteration count leaves the state exactly as the first call
left it (the cached fields are reused, no Gaussian samples drawn). -/
theorem thermalField_once_per_iteration (env : ThermEnv) (st : ThermSt)
    (n : ℕ) :
    (calcThermal env st n).iteration_Tcalculated = n + 1
    ∧ (¬ st.iteration_Tcalculated < n + 1 →
        calcThermal env st n = { st with iteration_Tcalculated := n + 1 })
    ∧ calcThermal env (calcThermal env st n) n = calcThermal env st n := by
  refine ⟨rfl, fun h => by simp [calcThermal, h], ?_⟩
  have hm : (calcThermal env st n).iteration_Tcalculated = n + 1 := rfl
  show ({ (if (calcThermal env st n).iteration_Tcalculated < n + 1
      then regenAll env (calcThermal env st n) else calcThermal env st n)
      with iteration_Tcalculated := n + 1 }) = calcThermal env st n
  rw [hm, if_neg (lt_irrefl (n + 1))]
  cases h : calcThermal env st n with
  | mk a b c d =>
    have : a = n + 1 := by rw [← hm, h]
    simp [this]

/-- Concrete thermal environment for the C7 witness. -/
def wThermEnv : ThermEnv :=
  ⟨1, fun _ => 1, fun q => q, fun _ => 1, fun _ => 1, fun _ => 1, fun _ => 1, 1⟩

/-- Concrete thermal state whose marker (5) already covers iteration 1. -/
def wThermSt : ThermSt := ⟨5, 0, fun _ => 0, fun _ => 0⟩

/-- Witness for C7: a call for iteration count 1 against a marker of 5
only rewrites the marker; no fields are regenerated. -/
theorem thermalField_once_per_iteration_witness :
    calcThermal wThermEnv wThermSt 1
      = { wThermSt with iteration_Tcalculated := 2 } :=
  (thermalField_once_per_iteration wThermEnv wThermSt 1).2.1 (by decide)

/-! ## Equilibrium polarization solve

Embedding of `YY_2LatExchange6Ngbr::Update_m_e_chi_l` (per-cell body,
source lines 1015-1038) and `YY_LLBEulerEvolve::Calculate_m_e` (lines
864-885).  The Langevin function and its derivative are abstract
parameters `L`, `dL` (the source computes them from `exp`/`sinh`); the
unbounded `while` loop is modelled with fuel, returning `none` on
non-termination within the fuel. -/

/-- The Newton loop `while(fabs(y)>tol){ x -= y/dy; ... }` on
`y = L(x) - A*x`, `dy = dL(x) - A`. -/
def newtonLoop (L dL : ℚ → ℚ) (A tol : ℚ) : ℕ → ℚ → Option ℚ
  | 0, x => if |L x - A * x| ≤ tol then some x else none
  | n + 1, x =>
    if |L x - A * x| ≤ tol then some x
    else newtonLoop L dL A tol n (x - (L x - A * x) / (dL x - A))

/-- Model of `YY_LLBEulerEvolve::Calculate_m_e`: returns 0 outside the ordered
regime, otherwise `A*x` for the Newton solution `x` started at `1/A`. -/
def Calculate_m_e (L dL : ℚ → ℚ) (KBc J T tol_in : ℚ) (fuel : ℕ) : Option ℚ :=
  let A := KBc * T / J
  if A ≤ 0 ∨ 1/3 ≤ A then some 0
  else (newtonLoop L dL A |tol_in| fuel (1/A)).map (fun x => A * x)

/-- One cell of `YY_2LatExchange6Ngbr::Update_m_e_chi_l`: outside the
ordered regime `m_e = 0`, `chi_l = MU0*mu/J`; otherwise the Newton solve
followed by the susceptibility formula. -/
def update_m_e_chi_l_cell (L dL : ℚ → ℚ) (MU0c KBc T J mu tol_in : ℚ)
    (fuel : ℕ) : Option (ℚ × ℚ) :=
  let kB_T := KBc * T
  let A := kB_T / J
  if A ≤ 0 ∨ 1/3 ≤ A then some (0, MU0c * mu / J)
  else
    match newtonLoop L dL A |tol_in| fuel (1/A) with
    | none => none
    | some x =>
      let me := A * x
      let dLv := dL (J * me / kB_T)
      let beta := 1 / kB_T
      some (me, MU0c * mu * beta * dLv / (1 - beta * J * dLv))

/-- Whenever the Newton loop returns, the residual at the returned point
is within the tolerance (the loop guard is `|y| > tol`). -/
lemma newtonLoop_residual (L dL : ℚ → ℚ) (A tol : ℚ) :
    ∀ (n : ℕ) (x0 x : ℚ), newtonLoop L dL A tol n x0 = some x →
      |L x - A * x| ≤ tol := by
  intro n
  induction n with
  | zero =>
    intro x0 x h
    by_cases hg : |L x0 - A * x0| ≤ tol
    · rw [newtonLoop, if_pos hg, Option.some_inj] at h
      exact h ▸ hg
    · rw [newtonLoop, if_neg hg] at h
      exact absurd h (by simp)
  | succ n ih =>
    intro x0 x h
    by_cases hg : |L x0 - A * x0| ≤ tol
    · rw [newtonLoop, if_pos hg, Option.some_inj] at h
      exact h ▸ hg
    · rw [newtonLoop, if_neg hg] at h
      exact ih _ x h

/-- C3.  Equilibrium polarization solve with `A = kT/J`: outside the
ordered regime (`A ≤ 0` or `A ≥ 1/3`) `Calculate_m_e` returns 0 and the
per-cell `Update_m_e_chi_l` body returns `m_e = 0`, `chi_l = MU0*mu/J`;
inside the regime, any returned value comes from a Newton iterate `x`
started at `1/A` whose residual satisfies `|L(x) - A*x| ≤ |tolerance|`,
and the returned equilibrium polarization equals `A*x`. -/
theorem equilibrium_solve_spec (L dL : ℚ → ℚ) (MU0c KBc T J mu tol_in : ℚ)
    (fuel : ℕ) :
    (KBc * T / J ≤ 0 ∨ 1/3 ≤ KBc * T / J →
      Calculate_m_e L dL KBc J T tol_in fuel = some 0
      ∧ update_m_e_chi_l_cell L dL MU0c KBc T J mu tol_in fuel
          = some (0, MU0c * mu / J))
    ∧ (∀ me, ¬(KBc * T / J ≤ 0 ∨ 1/3 ≤ KBc * T / J) →
        Calculate_m_e L dL KBc J T tol_in fuel = some me →
        ∃ x, newtonLoop L dL (KBc * T / J) |tol_in| fuel (1/(KBc * T / J))
              = some x
          ∧ |L x - (KBc * T / J) * x| ≤ |tol_in| ∧ me = (KBc * T / J) * x)
    ∧ (∀ me chi, ¬(KBc * T / J ≤ 0 ∨ 1/3 ≤ KBc * T / J) →
        update_m_e_chi_l_cell L dL MU0c KBc T J mu tol_in fuel
          = some (me, chi) →
        ∃ x, newtonLoop L dL (KBc * T / J) |tol_in| fuel (1/(KBc * T / J))
              = some x
          ∧ |L x - (KBc * T / J) * x| ≤ |tol_in| ∧ me = (KBc * T / J) * x) := by
  refine ⟨fun h => ⟨?_, ?_⟩, fun me h hres => ?_, fun me chi h hres => ?_⟩
  · simp only [Calculate_m_e]
    rw [if_pos h]
  · simp only [update_m_e_chi_l_cell]
    rw [if_pos h]
  · simp only [Calculate_m_e] at hres
    rw [if_neg h] at hres
    cases hn : newtonLoop L dL (KBc * T / J) |tol_in| fuel (1/(KBc * T / J)) with
    | none => rw [hn] at hres; exact absurd hres (by simp)
    | some x =>
      rw [hn] at hres
      simp only [Option.map_some', Option.some_inj] at hres
      exact ⟨x, rfl, newtonLoop_residual L dL _ _ fuel _ x hn, hres.symm⟩
  · simp only [update_m_e_chi_l_cell] at hres
    rw [if_neg h] at hres
    cases hn : newtonLoop L dL (KBc * T / J) |tol_in| fuel (1/(KBc * T / J)) with
    | none => rw [hn] at hres; exact absurd hres (by simp)
    | some x =>
      rw [hn] at hres
      simp only [Option.some_inj, Prod.mk.injEq] at hres
      exact ⟨x, rfl, newtonLoop_residual L dL _ _ fuel _ x hn, hres.1.symm⟩

/-- Witness for C3 with the zero Langevin stand-in, `kB·T/J = 1/4` and
tolerance 1: the loop accepts the start point `x = 4`, `m_e = 1`. -/
theorem equilibrium_solve_spec_witness :
    (Calculate_m_e (fun _ => 0) (fun _ => 0) 1 4 1 1 0 = some 0
      ∨ ∃ x, newtonLoop (fun _ : ℚ => (0:ℚ)) (fun _ => 0) (1 * 1 / 4) |(1:ℚ)| 0
          (1/(1 * 1 / 4)) = some x
        ∧ |(fun _ : ℚ => (0:ℚ)) x - (1 * 1 / 4) * x| ≤ |(1:ℚ)|
        ∧ (1:ℚ) = (1 * 1 / 4) * x) := by
  refine Or.inr ((equilibrium_solve_spec (fun _ => 0) (fun _ => 0) 1 1 1 4 1 1 0).2.1
    1 (by norm_num) ?_)
  simp only [Calculate_m_e]
  rw [if_neg (by norm_num)]
  simp only [newtonLoop]
  rw [if_pos (by norm_num)]
  simp only [Option.map_some', Option.some_inj]
  norm_num

/-! ## Max spin angle: `YY_2LatExchange6Ngbr::ComputeEnergyChunkFinalize`

Embedding of source lines 754-804: reduce the per-thread `maxdot` values,
convert to degrees with a clamp, and write the result into the state's
derived data at most once, with the cos-based tolerance check on a second
attempt.  `sqrt` and `asin` are abstract parameters; `PI` and
`OC_REAL8_EPSILON` are rational parameters.  The state's derived-data
slot for the max spin angle is an `Option ℚ` (write-once map entry); a
fatal `Oxs_ExtError` is an `Except.error`. -/

/-- Reduction `total_maxdot`: running maximum of the per-thread `maxdot` values,
starting from 0 (source lines 755-758). -/
def totalMaxdot (l : List ℚ) : ℚ :=
  l.foldl (fun t m => if t < m then m else t) 0

/-- Angle `maxang = (arg >= 1.0 ? 180.0 : asin(arg)*(360.0/PI))` with
`arg = 0.5*sqrt(total_maxdot)` (source lines 759-760). -/
def maxangOf (sqrtQ asinQ : ℚ → ℚ) (piQ maxdot : ℚ) : ℚ :=
  let arg := (1/2) * sqrtQ maxdot
  if 1 ≤ arg then 180 else asinQ arg * (360 / piQ)

/-- The adjusted angle sum used by the tolerance check:
`sum = (v+maxang)*(PI/180); if(sum > PI) sum = 2*PI - sum`. -/
def msaAdjSum (piQ v maxang : ℚ) : ℚ :=
  let sum0 := (v + maxang) * (piQ / 180)
  if piQ < sum0 then 2 * piQ - sum0 else sum0

/-- Text of the fatal double-set error raised by the finalize step. -/
def msaErrText : String :=
  "max spin angle set to two different values"

/-- The derived-data update of `ComputeEnergyChunkFinalize` for the max
spin angle entry: store on first computation; on recomputation compare
`|diff*sum|` against `8*OC_REAL8_EPSILON` and raise a fatal error exactly
when the tolerance is exceeded, else keep the stored value. -/
def finalizeMsa (piQ eps : ℚ) (stored : Option ℚ) (maxang : ℚ) :
    Except String (Option ℚ) :=
  match stored with
  | none => .ok (some maxang)
  | some v =>
    let diff := (v - maxang) * (piQ / 180)
    if 8 * eps < |diff * msaAdjSum piQ v maxang| then
      .error msaErrText
    else .ok (some v)

/-- C6.  The maximum neighbour spin angle is `asin(0.5*sqrt(maxDot)) *
(360/PI)` degrees, clamped to 180 when `0.5*sqrt(maxDot) ≥ 1`; a first
finalize stores it; a second finalize raises the fatal error exactly when
`|diff*sum|` exceeds the `8*eps` cos-based tolerance, and otherwise is
silent and keeps the stored value unchanged (so the entry is written at
most once per state). -/
theorem maxSpinAngle_cached_once (sqrtQ asinQ : ℚ → ℚ) (piQ eps d : ℚ) :
    ((1 ≤ (1/2) * sqrtQ d → maxangOf sqrtQ asinQ piQ d = 180)
      ∧ (¬ 1 ≤ (1/2) * sqrtQ d →
          maxangOf sqrtQ asinQ piQ d = asinQ ((1/2) * sqrtQ d) * (360 / piQ)))
    ∧ (∀ a, finalizeMsa piQ eps none a = .ok (some a))
    ∧ (∀ v a, (∃ msg, finalizeMsa piQ eps (some v) a = .error msg)
        ↔ 8 * eps < |(v - a) * (piQ / 180) * msaAdjSum piQ v a|)
    ∧ (∀ v a, ¬ 8 * eps < |(v - a) * (piQ / 180) * msaAdjSum piQ v a| →
        finalizeMsa piQ eps (some v) a = .ok (some v)) := by
  refine ⟨⟨fun h => by simp only [maxangOf]; rw [if_pos h],
      fun h => by simp only [maxangOf]; rw [if_neg h]⟩,
    fun a => rfl, fun v a => ?_, fun v a h => by
      simp only [finalizeMsa]; rw [if_neg h]⟩
  constructor
  · rintro ⟨msg, hmsg⟩
    by_cases hc : 8 * eps < |(v - a) * (piQ / 180) * msaAdjSum piQ v a|
    · exact hc
    · simp only [finalizeMsa] at hmsg
      rw [if_neg hc] at hmsg
      exact absurd hmsg (by simp)
  · intro hc
    refine ⟨msaErrText, ?_⟩
    simp only [finalizeMsa]
    rw [if_pos hc]

/-- Witness for C6 at `sqrt = id`, `maxDot = 4` (clamped branch), `PI
= 3`, `eps = 0`: a first store, a tolerated identical re-finalize, and an
erroring different re-finalize. -/
theorem maxSpinAngle_cached_once_witness :
    maxangOf (fun q => q) (fun q => q) 3 4 = 180
    ∧ finalizeMsa 3 0 (some 180) 180 = .ok (some 180)
    ∧ (∃ msg, finalizeMsa 3 0 (some 180) 0 = .error msg) := by
  refine ⟨(maxSpinAngle_cached_once (fun q => q) (fun q => q) 3 0 4).1.1
      (by norm_num),
    (maxSpinAngle_cached_once (fun q => q) (fun q => q) 3 0 4).2.2.2 180 180
      (by norm_num [msaAdjSum]),
    ((maxSpinAngle_cached_once (fun q => q) (fun q => q) 3 0 4).2.2.1
      180 0).mpr (by norm_num [msaAdjSum])⟩

/-! ## Coefficient matrices: the `YY_2LatExchange6Ngbr` constructor

Embedding of source lines 96-133 (region-count bounds), 182-197 (list
shape checks) and the three fill loops (208-284, 289-365, 370-458).  The
atlas's `GetRegionId` and `Nb_Atof` are abstract parameters
(`rid : String → Option ℕ`, negative return modelled as `none`;
`parse : String → Option ℚ`).  A matrix is a total function defaulting
everywhere to the channel default, as the code initialises every entry. -/

/-- A coefficient matrix: entry lookup `coef[i][j]`. -/
abbrev CoefMat : Type := ℕ → ℕ → ℚ

/-- A single store `coef[i][j] = v`. -/
def coefSet (m : CoefMat) (i j : ℕ) (v : ℚ) : CoefMat :=
  fun a b => if a = i ∧ b = j then v else m a b

/-- Constructor failure modes (each is an `Oxs_ExtError` in the source;
the unknown-region error carries the enumerated known region names). -/
inductive CoefErr where
  | tooFewRegions : CoefErr
  | tooManyRegions : CoefErr
  | emptyParams : CoefErr
  | badListLength : CoefErr
  | unknownRegion (known : List String) : CoefErr
  | badCoefToken : CoefErr
deriving DecidableEq, Repr

/-- Bound `max_coef_size` as computed from `sizeof(OC_INDEX)` (source lines
106-123): `2^((8*sizeof-1)/2)` scaled by a rational lower bound of
`sqrt 2`, minus 1; table value 11 for one-byte indices. -/
def maxCoefSize (szof : ℕ) : ℕ :=
  let sqrootbits := (szof * 8 - 1) / 2
  let c := 2 ^ sqrootbits
  if szof = 1 then 11
  else if szof < 5 then (c * 239 + 168) / 169 - 1
  else (c * 275807 + 195024) / 195025 - 1

/-- One channel's fill loop: walk the flat `(nameA, nameB, token)` list
three entries at a time, resolve the two region names, parse the token,
and perform the two symmetric stores. -/
def fillCoef (rid : String → Option ℕ) (regions : List String)
    (parse : String → Option ℚ) : List String → CoefMat →
    Except CoefErr CoefMat
  | [], m => .ok m
  | n1 :: n2 :: tok :: rest, m =>
    match rid n1, rid n2 with
    | some i1, some i2 =>
      match parse tok with
      | some v => fillCoef rid regions parse rest (coefSet (coefSet m i1 i2 v) i2 i1 v)
      | none => .error .badCoefToken
    | _, _ => .error (.unknownRegion regions)
  | _, _ => .error .badListLength

/-- The three coefficient matrices owned by the module. -/
structure CoefMatrices where
  coef1 : CoefMat
  coef2 : CoefMat
  coef12 : CoefMat

/-- The constructor's coefficient-matrix pipeline: region-count bounds
check, empty-list check, divisibility-by-3 check, then the three channel
fills starting from the channel defaults. -/
def ctor2LatExchange (rid : String → Option ℕ) (regions : List String)
    (parse : String → Option ℚ) (coef_size szof : ℕ) (d1 d2 d12 : ℚ)
    (p1 p2 p12 : List String) : Except CoefErr CoefMatrices :=
  if coef_size < 1 then .error .tooFewRegions
  else if maxCoefSize szof < coef_size then .error .tooManyRegions
  else if p1 = [] ∨ p2 = [] ∨ p12 = [] then .error .emptyParams
  else if ¬(p1.length % 3 = 0 ∧ p2.length % 3 = 0 ∧ p12.length % 3 = 0) then
    .error .badListLength
  else
    match fillCoef rid regions parse p1 (fun _ _ => d1) with
    | .error e => .error e
    | .ok c1 =>
      match fillCoef rid regions parse p2 (fun _ _ => d2) with
      | .error e => .error e
      | .ok c2 =>
        match fillCoef rid regions parse p12 (fun _ _ => d12) with
        | .error e => .error e
        | .ok c12 => .ok ⟨c1, c2, c12⟩

/-- Pair `(i,j)` is named by some `(nameA, nameB, value)` triple of the flat
parameter list, in either orientation. -/
def namesPair (rid : String → Option ℕ) : List String → ℕ → ℕ → Prop
  | n1 :: n2 :: _ :: rest => fun i j =>
      (rid n1 = some i ∧ rid n2 = some j)
      ∨ (rid n1 = some j ∧ rid n2 = some i)
      ∨ namesPair rid rest i j
  | _ => fun _ _ => False

/-- Some triple of the flat list mentions a region name unknown to the
atlas (in its first or second slot). -/
def hasUnknownRegion (rid : String → Option ℕ) : List String → Prop
  | n1 :: n2 :: _ :: rest =>
      rid n1 = none ∨ rid n2 = none ∨ hasUnknownRegion rid rest
  | _ => False

/-- Some triple's coefficient token does not parse as a real number. -/
def hasBadToken (parse : String → Option ℚ) : List String → Prop
  | _ :: _ :: tok :: rest => parse tok = none ∨ hasBadToken parse rest
  | _ => False

/-- The symmetric pair of stores preserves matrix symmetry. -/
lemma coefSet_pair_symm (m : CoefMat) (hm : ∀ i j, m i j = m j i)
    (i j : ℕ) (v : ℚ) (a b : ℕ) :
    coefSet (coefSet m i j v) j i v a b = coefSet (coefSet m i j v) j i v b a := by
  simp only [coefSet]
  by_cases h1 : a = j ∧ b = i
  · rw [if_pos h1]
    by_cases h3 : b = j ∧ a = i
    · rw [if_pos h3]
    · rw [if_neg h3, if_pos ⟨h1.2, h1.1⟩]
  · rw [if_neg h1]
    by_cases h2 : a = i ∧ b = j
    · rw [if_pos h2, if_pos ⟨h2.2, h2.1⟩]
    · rw [if_neg h2, if_neg (fun hc => h2 ⟨hc.2, hc.1⟩),
        if_neg (fun hc => h1 ⟨hc.2, hc.1⟩)]
      exact hm a b

/-- The symmetric pair of stores fixes every entry other than `(i,j)` and
`(j,i)`. -/
lemma coefSet_pair_other (m : CoefMat) (i j : ℕ) (v : ℚ) (a b : ℕ)
    (h : ¬((a = i ∧ b = j) ∨ (a = j ∧ b = i))) :
    coefSet (coefSet m i j v) j i v a b = m a b := by
  simp only [coefSet]
  rw [if_neg (fun hc => h (Or.inr hc)), if_neg (fun hc => h (Or.inl hc))]

/-- Invariants carried through a successful `fillCoef` run: symmetry is
preserved, and entries named by no triple of the remaining list keep
their incoming value. -/
lemma fillCoef_ok_aux (rid : String → Option ℕ) (regions : List String)
    (parse : String → Option ℚ) :
    ∀ (ps : List String) (m m' : CoefMat),
      fillCoef rid regions parse ps m = .ok m' →
      ((∀ i j, m i j = m j i) → ∀ i j, m' i j = m' j i)
      ∧ (∀ i j, ¬ namesPair rid ps i j → m' i j = m i j)
  | [], m, m', h => by
    rw [fillCoef, Except.ok.injEq] at h
    exact ⟨fun hs i j => h ▸ hs i j, fun i j _ => h ▸ rfl⟩
  | n1 :: n2 :: tok :: rest, m, m', h => by
    rw [fillCoef] at h
    cases hr1 : rid n1 with
    | none => rw [hr1] at h; exact absurd h (by simp)
    | some i1 =>
      cases hr2 : rid n2 with
      | none => rw [hr1, hr2] at h; exact absurd h (by simp)
      | some i2 =>
        rw [hr1, hr2] at h
        cases hp : parse tok with
        | none => rw [hp] at h; exact absurd h (by simp)
        | some v =>
          rw [hp] at h
          have ih := fillCoef_ok_aux rid regions parse rest
            (coefSet (coefSet m i1 i2 v) i2 i1 v) m' h
          refine ⟨fun hs => ih.1 (coefSet_pair_symm m hs i1 i2 v), ?_⟩
          intro i j hnp
          simp only [namesPair, hr1, hr2, Option.some_inj] at hnp
          push_neg at hnp
          rw [ih.2 i j hnp.2.2, coefSet_pair_other]
          rintro (⟨hi, hj⟩ | ⟨hi, hj⟩)
          · exact (hnp.1 hi.symm) hj.symm
          · exact (hnp.2.1 hj.symm) hi.symm
  | [n1], m, m', h => Except.noConfusion h
  | [n1, n2], m, m', h => Except.noConfusion h

/-- C2.  On constructor success each of the three coupling matrices is
symmetric, and every entry not named (in either orientation) by some
triple of the corresponding parameter list equals that channel's
configured default. -/
theorem coefMatrices_symmetric_and_default (rid : String → Option ℕ)
    (regions : List String) (parse : String → Option ℚ)
    (coef_size szof : ℕ) (d1 d2 d12 : ℚ) (p1 p2 p12 : List String)
    (r : CoefMatrices)
    (h : ctor2LatExchange rid regions parse coef_size szof d1 d2 d12
        p1 p2 p12 = .ok r) :
    ((∀ i j, r.coef1 i j = r.coef1 j i)
      ∧ (∀ i j, r.coef2 i j = r.coef2 j i)
      ∧ (∀ i j, r.coef12 i j = r.coef12 j i))
    ∧ ((∀ i j, ¬ namesPair rid p1 i j → r.coef1 i j = d1)
      ∧ (∀ i j, ¬ namesPair rid p2 i j → r.coef2 i j = d2)
      ∧ (∀ i j, ¬ namesPair rid p12 i j → r.coef12 i j = d12)) := by
  simp only [ctor2LatExchange] at h
  split_ifs at h
  cases hf1 : fillCoef rid regions parse p1 (fun _ _ => d1) with
  | error e => rw [hf1] at h; exact absurd h (by simp)
  | ok c1 =>
    rw [hf1] at h
    cases hf2 : fillCoef rid regions parse p2 (fun _ _ => d2) with
    | error e => rw [hf2] at h; exact absurd h (by simp)
    | ok c2 =>
      rw [hf2] at h
      cases hf3 : fillCoef rid regions parse p12 (fun _ _ => d12) with
      | error e => rw [hf3] at h; exact absurd h (by simp)
      | ok c12 =>
        rw [hf3, Except.ok.injEq] at h
        subst h
        have a1 := fillCoef_ok_aux rid regions parse p1 _ c1 hf1
        have a2 := fillCoef_ok_aux rid regions parse p2 _ c2 hf2
        have a3 := fillCoef_ok_aux rid regions parse p12 _ c12 hf3
        exact ⟨⟨a1.1 (fun _ _ => rfl), a2.1 (fun _ _ => rfl),
            a3.1 (fun _ _ => rfl)⟩,
          fun i j hn => a1.2 i j hn, fun i j hn => a2.2 i j hn,
          fun i j hn => a3.2 i j hn⟩

/-- Region-name resolver of the concrete single-region atlas used by the
constructor witnesses. -/
def wRid : String → Option ℕ := fun s => if s = "A" then some 0 else none

/-- Concrete numeric-token parser for the constructor witnesses. -/
def wParse : String → Option ℚ := fun s =>
  if s = "2" then some 2 else if s = "3" then some 3
  else if s = "4" then some 4 else none

/-- The matrices the witness construction produces. -/
def wMatC2 : CoefMatrices :=
  ⟨coefSet (coefSet (fun _ _ => 0) 0 0 2) 0 0 2,
   coefSet (coefSet (fun _ _ => 0) 0 0 3) 0 0 3,
   coefSet (coefSet (fun _ _ => 0) 0 0 4) 0 0 4⟩

/-- Witness for C2: a successful one-region construction yields symmetric
matrices with untouched entries at the default. -/
theorem coefMatrices_symmetric_and_default_witness :
    (∀ i j, wMatC2.coef1 i j = wMatC2.coef1 j i) ∧ wMatC2.coef1 2 3 = 0 := by
  have h := coefMatrices_symmetric_and_default wRid ["A"] wParse 1 8 0 0 0
    (["A", "A", "2"]) (["A", "A", "3"]) (["A", "A", "4"]) wMatC2 rfl
  refine ⟨h.1.1, h.2.1 2 3 ?_⟩
  simp only [namesPair]
  decide

/-- A fill over a list containing an unknown region name always fails. -/
lemma fillCoef_unknown_fails (rid : String → Option ℕ) (regions : List String)
    (parse : String → Option ℚ) :
    ∀ (ps : List String), hasUnknownRegion rid ps →
      ∀ m, ∃ e, fillCoef rid regions parse ps m = .error e
  | n1 :: n2 :: tok :: rest, hu, m => by
    rw [fillCoef]
    cases hr1 : rid n1 with
    | none => exact ⟨.unknownRegion regions, rfl⟩
    | some i1 =>
      cases hr2 : rid n2 with
      | none => exact ⟨.unknownRegion regions, rfl⟩
      | some i2 =>
        cases hp : parse tok with
        | none => exact ⟨.badCoefToken, rfl⟩
        | some v =>
          have hrest : hasUnknownRegion rid rest := by
            simp only [hasUnknownRegion, hr1, hr2] at hu
            simpa using hu
          exact fillCoef_unknown_fails rid regions parse rest hrest _

/-- A fill over a list containing an unparsable coefficient token always
fails. -/
lemma fillCoef_badtok_fails (rid : String → Option ℕ) (regions : List String)
    (parse : String → Option ℚ) :
    ∀ (ps : List String), hasBadToken parse ps →
      ∀ m, ∃ e, fillCoef rid regions parse ps m = .error e
  | n1 :: n2 :: tok :: rest, hb, m => by
    rw [fillCoef]
    cases hr1 : rid n1 with
    | none => exact ⟨.unknownRegion regions, rfl⟩
    | some i1 =>
      cases hr2 : rid n2 with
      | none => exact ⟨.unknownRegion regions, rfl⟩
      | some i2 =>
        cases hp : parse tok with
        | none => exact ⟨.badCoefToken, rfl⟩
        | some v =>
          have hrest : hasBadToken parse rest := by
            simp only [hasBadToken, hp] at hb
            simpa using hb
          exact fillCoef_badtok_fails rid regions parse rest hrest _

/-- Whenever a fill reports an unknown region, the error carries exactly
the atlas's known region list (the source enumerates it in the message). -/
lemma fillCoef_error_enum (rid : String → Option ℕ) (regions : List String)
    (parse : String → Option ℚ) :
    ∀ (ps : List String) (m : CoefMat) (ks : List String),
      fillCoef rid regions parse ps m = .error (.unknownRegion ks) →
      ks = regions
  | [], m, ks, h => Except.noConfusion h
  | [n1], m, ks, h => by
    have h2 : (Except.error CoefErr.badListLength : Except CoefErr CoefMat)
        = .error (.unknownRegion ks) := h
    rw [Except.error.injEq] at h2
    exact CoefErr.noConfusion h2
  | [n1, n2], m, ks, h => by
    have h2 : (Except.error CoefErr.badListLength : Except CoefErr CoefMat)
        = .error (.unknownRegion ks) := h
    rw [Except.error.injEq] at h2
    exact CoefErr.noConfusion h2
  | n1 :: n2 :: tok :: rest, m, ks, h => by
    rw [fillCoef] at h
    cases hr1 : rid n1 with
    | none =>
      rw [hr1, Except.error.injEq] at h
      exact ((CoefErr.unknownRegion.injEq _ _).mp h).symm
    | some i1 =>
      cases hr2 : rid n2 with
      | none =>
        rw [hr1, hr2, Except.error.injEq] at h
        exact ((CoefErr.unknownRegion.injEq _ _).mp h).symm
      | some i2 =>
        rw [hr1, hr2] at h
        cases hp : parse tok with
        | none =>
          rw [hp, Except.error.injEq] at h
          exact CoefErr.noConfusion h
        | some v =>
          rw [hp] at h
          exact fillCoef_error_enum rid regions parse rest _ ks h

/-- If any of the three channel fills must fail, the constructor fails. -/
lemma ctor_fail_of_fill (rid : String → Option ℕ) (regions : List String)
    (parse : String → Option ℚ) (coef_size szof : ℕ) (d1 d2 d12 : ℚ)
    (p1 p2 p12 : List String)
    (hfail : (∀ m, ∃ e, fillCoef rid regions parse p1 m = .error e)
      ∨ (∀ m, ∃ e, fillCoef rid regions parse p2 m = .error e)
      ∨ (∀ m, ∃ e, fillCoef rid regions parse p12 m = .error e)) :
    ∃ e, ctor2LatExchange rid regions parse coef_size szof d1 d2 d12
        p1 p2 p12 = .error e := by
  simp only [ctor2LatExchange]
  split_ifs
  case pos => exact ⟨_, rfl⟩
  all_goals try exact ⟨_, rfl⟩
  · rcases hfail with hf | hf | hf
    · obtain ⟨e, he⟩ := hf (fun _ _ => d1)
      rw [he]
      exact ⟨e, rfl⟩
    · cases hq : fillCoef rid regions parse p1 (fun _ _ => d1) with
      | error e => exact ⟨e, rfl⟩
      | ok c1 =>
        obtain ⟨e, he⟩ := hf (fun _ _ => d2)
        rw [he]
        exact ⟨e, rfl⟩
    · cases hq : fillCoef rid regions parse p1 (fun _ _ => d1) with
      | error e => exact ⟨e, rfl⟩
      | ok c1 =>
        cases hq2 : fillCoef rid regions parse p2 (fun _ _ => d2) with
        | error e => exact ⟨e, rfl⟩
        | ok c2 =>
          obtain ⟨e, he⟩ := hf (fun _ _ => d12)
          rw [he]
          exact ⟨e, rfl⟩

/-- C8.  The constructor fails with a configuration error when: the atlas
region count is below 1 or above the platform maximum derived from the
index-type width; a sub-list's length is not a multiple of 3; some named
region is unknown to the atlas; or some coefficient token does not parse.
Any unknown-region error carries the full list of known region names.
The platform maximum is small enough that `regionCount²` fits the signed
index type at every modelled `sizeof(OC_INDEX)`. -/
theorem ctor_rejects_bad_configuration (rid : String → Option ℕ)
    (regions : List String) (parse : String → Option ℚ)
    (coef_size szof : ℕ) (d1 d2 d12 : ℚ) (p1 p2 p12 : List String) :
    (coef_size < 1 → ∃ e, ctor2LatExchange rid regions parse coef_size szof
        d1 d2 d12 p1 p2 p12 = .error e)
    ∧ (maxCoefSize szof < coef_size → ∃ e, ctor2LatExchange rid regions parse
        coef_size szof d1 d2 d12 p1 p2 p12 = .error e)
    ∧ (¬(p1.length % 3 = 0 ∧ p2.length % 3 = 0 ∧ p12.length % 3 = 0) →
        ∃ e, ctor2LatExchange rid regions parse coef_size szof
          d1 d2 d12 p1 p2 p12 = .error e)
    ∧ (hasUnknownRegion rid p1 ∨ hasUnknownRegion rid p2
        ∨ hasUnknownRegion rid p12 →
        ∃ e, ctor2LatExchange rid regions parse coef_size szof
          d1 d2 d12 p1 p2 p12 = .error e)
    ∧ (hasBadToken parse p1 ∨ hasBadToken parse p2 ∨ hasBadToken parse p12 →
        ∃ e, ctor2LatExchange rid regions parse coef_size szof
          d1 d2 d12 p1 p2 p12 = .error e)
    ∧ (∀ ks, ctor2LatExchange rid regions parse coef_size szof
          d1 d2 d12 p1 p2 p12 = .error (.unknownRegion ks) → ks = regions)
    ∧ (maxCoefSize 1 = 11 ∧ (maxCoefSize 1)^2 < 2^7
        ∧ (maxCoefSize 2)^2 < 2^15 ∧ (maxCoefSize 4)^2 < 2^31
        ∧ (maxCoefSize 8)^2 < 2^63) := by
  have e1 : coef_size < 1 → ∃ e, ctor2LatExchange rid regions parse coef_size
      szof d1 d2 d12 p1 p2 p12 = .error e := by
    intro h
    refine ⟨.tooFewRegions, ?_⟩
    simp only [ctor2LatExchange]
    rw [if_pos h]
  refine ⟨e1, fun h => ?_, fun h => ?_, fun h => ?_, fun h => ?_,
    fun ks h => ?_, by decide⟩
  · by_cases h1 : coef_size < 1
    · exact e1 h1
    · refine ⟨.tooManyRegions, ?_⟩
      simp only [ctor2LatExchange]
      rw [if_neg h1, if_pos h]
  · by_cases h1 : coef_size < 1
    · exact e1 h1
    · by_cases h2 : maxCoefSize szof < coef_size
      · refine ⟨.tooManyRegions, ?_⟩
        simp only [ctor2LatExchange]
        rw [if_neg h1, if_pos h2]
      · by_cases h3 : p1 = [] ∨ p2 = [] ∨ p12 = []
        · refine ⟨.emptyParams, ?_⟩
          simp only [ctor2LatExchange]
          rw [if_neg h1, if_neg h2, if_pos h3]
        · refine ⟨.badListLength, ?_⟩
          simp only [ctor2LatExchange]
          rw [if_neg h1, if_neg h2, if_neg h3, if_pos h]
  · refine ctor_fail_of_fill rid regions parse coef_size szof d1 d2 d12
      p1 p2 p12 ?_
    rcases h with h | h | h
    · exact Or.inl (fillCoef_unknown_fails rid regions parse p1 h)
    · exact Or.inr (Or.inl (fillCoef_unknown_fails rid regions parse p2 h))
    · exact Or.inr (Or.inr (fillCoef_unknown_fails rid regions parse p12 h))
  · refine ctor_fail_of_fill rid regions parse coef_size szof d1 d2 d12
      p1 p2 p12 ?_
    rcases h with h | h | h
    · exact Or.inl (fillCoef_badtok_fails rid regions parse p1 h)
    · exact Or.inr (Or.inl (fillCoef_badtok_fails rid regions parse p2 h))
    · exact Or.inr (Or.inr (fillCoef_badtok_fails rid regions parse p12 h))
  · simp only [ctor2LatExchange] at h
    split_ifs at h
    all_goals try (rw [Except.error.injEq] at h; exact CoefErr.noConfusion h)
    cases hf1 : fillCoef rid regions parse p1 (fun _ _ => d1) with
    | error e =>
      rw [hf1] at h
      have h2 : (Except.error e : Except CoefErr CoefMatrices)
          = .error (.unknownRegion ks) := h
      rw [Except.error.injEq] at h2
      exact fillCoef_error_enum rid regions parse p1 _ ks (h2 ▸ hf1)
    | ok c1 =>
      rw [hf1] at h
      cases hf2 : fillCoef rid regions parse p2 (fun _ _ => d2) with
      | error e =>
        rw [hf2] at h
        have h2 : (Except.error e : Except CoefErr CoefMatrices)
            = .error (.unknownRegion ks) := h
        rw [Except.error.injEq] at h2
        exact fillCoef_error_enum rid regions parse p2 _ ks (h2 ▸ hf2)
      | ok c2 =>
        rw [hf2] at h
        cases hf3 : fillCoef rid regions parse p12 (fun _ _ => d12) with
        | error e =>
          rw [hf3] at h
          have h2 : (Except.error e : Except CoefErr CoefMatrices)
              = .error (.unknownRegion ks) := h
          rw [Except.error.injEq] at h2
          exact fillCoef_error_enum rid regions parse p12 _ ks (h2 ▸ hf3)
        | ok c12 =>
          rw [hf3] at h
          exact Except.noConfusion h

/-- Witness for C8: region count 0 is rejected, and a triple naming the
unknown region "B" is rejected. -/
theorem ctor_rejects_bad_configuration_witness :
    (∃ e, ctor2LatExchange wRid ["A"] wParse 0 8 0 0 0
        (["A", "A", "2"]) (["A", "A", "3"]) (["A", "A", "4"]) = .error e)
    ∧ (∃ e, ctor2LatExchange wRid ["A"] wParse 1 8 0 0 0
        (["A", "B", "2"]) (["A", "A", "3"]) (["A", "A", "4"]) = .error e) := by
  constructor
  · exact (ctor_rejects_bad_configuration wRid ["A"] wParse 0 8 0 0 0
      (["A", "A", "2"]) (["A", "A", "3"]) (["A", "A", "4"])).1 (by decide)
  · refine (ctor_rejects_bad_configuration wRid ["A"] wParse 1 8 0 0 0
      (["A", "B", "2"]) (["A", "A", "3"]) (["A", "A", "4"])).2.2.2.1 ?_
    refine Or.inl ?_
    simp only [hasUnknownRegion]
    decide

/-! ## Driver: `YY_2LatDriver` constructor Ms2 reciprocal

Embedding of source lines 59-73: walk the filled `Ms2` array; a negative
value raises a configuration error naming the mesh index; zero maps to a
zero reciprocal; positive values map to `1/Ms2[i]`. -/

/-- The constructor's `Ms_inverse2` fill loop, carrying the running cell
index; the error payload is the offending mesh index. -/
def fillMsInverse : List ℚ → ℕ → Except ℕ (List ℚ)
  | [], _ => .ok []
  | v :: rest, idx =>
    if v < 0 then .error idx
    else if v = 0 then
      match fillMsInverse rest (idx + 1) with
      | .error e => .error e
      | .ok l => .ok (0 :: l)
    else
      match fillMsInverse rest (idx + 1) with
      | .error e => .error e
      | .ok l => .ok ((1 / v) :: l)

/-- Any reported error index is in range, points at a negative cell, and
an error is reported whenever some cell is negative (generalised over the
starting index). -/
lemma fillMsInverse_error_aux :
    ∀ (ms : List ℚ) (idx : ℕ),
      (∀ k, fillMsInverse ms idx = .error k →
        idx ≤ k ∧ k - idx < ms.length ∧ ms.getD (k - idx) 0 < 0)
      ∧ ((∃ v ∈ ms, v < 0) → ∃ k, fillMsInverse ms idx = .error k)
  | [], idx => by
    constructor
    · intro k h
      exact Except.noConfusion h
    · rintro ⟨v, hv, _⟩
      exact absurd hv (List.not_mem_nil v)
  | v :: rest, idx => by
    have ih := fillMsInverse_error_aux rest (idx + 1)
    constructor
    · intro k h
      rw [fillMsInverse] at h
      by_cases hneg : v < 0
      · rw [if_pos hneg, Except.error.injEq] at h
        subst h
        simpa using hneg
      · rw [if_neg hneg] at h
        by_cases hz : v = 0
        · rw [if_pos hz] at h
          cases hr : fillMsInverse rest (idx + 1) with
          | error e =>
            rw [hr] at h
            have h2 : (Except.error e : Except ℕ (List ℚ)) = .error k := h
            rw [Except.error.injEq] at h2
            subst h2
            obtain ⟨hk1, hk2, hk3⟩ := (ih.1 e) hr
            refine ⟨le_trans (Nat.le_succ idx) hk1, ?_, ?_⟩
            · have : e - idx = (e - (idx + 1)) + 1 := by omega
              simp only [List.length_cons]
              omega
            · have heq : e - idx = (e - (idx + 1)) + 1 := by omega
              rw [heq]
              simpa using hk3
          | ok l =>
            rw [hr] at h
            exact Except.noConfusion h
        · rw [if_neg hz] at h
          cases hr : fillMsInverse rest (idx + 1) with
          | error e =>
            rw [hr] at h
            have h2 : (Except.error e : Except ℕ (List ℚ)) = .error k := h
            rw [Except.error.injEq] at h2
            subst h2
            obtain ⟨hk1, hk2, hk3⟩ := (ih.1 e) hr
            refine ⟨le_trans (Nat.le_succ idx) hk1, ?_, ?_⟩
            · simp only [List.length_cons]
              omega
            · have heq : e - idx = (e - (idx + 1)) + 1 := by omega
              rw [heq]
              simpa using hk3
          | ok l =>
            rw [hr] at h
            exact Except.noConfusion h
    · rintro ⟨w, hw, hwneg⟩
      rw [List.mem_cons] at hw
      by_cases hneg : v < 0
      · exact ⟨idx, by rw [fillMsInverse, if_pos hneg]⟩
      · have hwrest : w ∈ rest := by
          rcases hw with hw | hw
          · exact absurd (hw ▸ hwneg) hneg
          · exact hw
        obtain ⟨k, hk⟩ := ih.2 ⟨w, hwrest, hwneg⟩
        by_cases hz : v = 0
        · refine ⟨k, ?_⟩
          rw [fillMsInverse, if_neg hneg, if_pos hz, hk]
        · refine ⟨k, ?_⟩
          rw [fillMsInverse, if_neg hneg, if_neg hz, hk]

/-- On success the reciprocal list matches cellwise: zero cells get zero,
positive cells get the exact reciprocal. -/
lemma fillMsInverse_ok_aux :
    ∀ (ms : List ℚ) (idx : ℕ) (inv : List ℚ),
      fillMsInverse ms idx = .ok inv →
      inv.length = ms.length
      ∧ ∀ i, i < ms.length →
          (ms.getD i 0 = 0 → inv.getD i 0 = 0)
          ∧ (0 < ms.getD i 0 → inv.getD i 0 = 1 / ms.getD i 0)
  | [], idx, inv => by
    intro h
    rw [fillMsInverse, Except.ok.injEq] at h
    subst h
    exact ⟨rfl, fun i hi => absurd hi (by simp)⟩
  | v :: rest, idx, inv => by
    intro h
    rw [fillMsInverse] at h
    by_cases hneg : v < 0
    · rw [if_pos hneg] at h
      exact Except.noConfusion h
    · rw [if_neg hneg] at h
      by_cases hz : v = 0
      · rw [if_pos hz] at h
        cases hr : fillMsInverse rest (idx + 1) with
        | error e => rw [hr] at h; exact Except.noConfusion h
        | ok l =>
          rw [hr] at h
          have h2 : (Except.ok (0 :: l) : Except ℕ (List ℚ)) = .ok inv := h
          rw [Except.ok.injEq] at h2
          subst h2
          obtain ⟨hlen, hcell⟩ := fillMsInverse_ok_aux rest (idx + 1) l hr
          refine ⟨by simpa using hlen, fun i hi => ?_⟩
          cases i with
          | zero => exact ⟨fun _ => rfl, fun hpos => absurd (hz ▸ hpos) (by simp)⟩
          | succ n =>
            have hn : n < rest.length := by simpa using hi
            simpa using hcell n hn
      · rw [if_neg hz] at h
        cases hr : fillMsInverse rest (idx + 1) with
        | error e => rw [hr] at h; exact Except.noConfusion h
        | ok l =>
          rw [hr] at h
          have h2 : (Except.ok ((1 / v) :: l) : Except ℕ (List ℚ)) = .ok inv := h
          rw [Except.ok.injEq] at h2
          subst h2
          obtain ⟨hlen, hcell⟩ := fillMsInverse_ok_aux rest (idx + 1) l hr
          refine ⟨by simpa using hlen, fun i hi => ?_⟩
          cases i with
          | zero => exact ⟨fun hc => absurd hc hz, fun _ => rfl⟩
          | succ n =>
            have hn : n < rest.length := by simpa using hi
            simpa using hcell n hn

/-- C9.  The `YY_2LatDriver` constructor's `Ms_inverse2` fill: a field
with a negative cell is rejected with an error naming an in-range mesh
index holding a negative value (and some error is always raised when a
negative cell exists); on success, every zero-Ms cell has reciprocal
exactly 0 and every positive cell has reciprocal `1/Ms2[i]`, so the
reciprocal is never produced by a division by zero. -/
theorem ms2_inverse_invariant (ms : List ℚ) :
    ((∃ v ∈ ms, v < 0) → ∃ k, fillMsInverse ms 0 = .error k)
    ∧ (∀ k, fillMsInverse ms 0 = .error k →
        k < ms.length ∧ ms.getD k 0 < 0)
    ∧ (∀ inv, fillMsInverse ms 0 = .ok inv →
        inv.length = ms.length
        ∧ ∀ i, i < ms.length →
            (ms.getD i 0 = 0 → inv.getD i 0 = 0)
            ∧ (0 < ms.getD i 0 → inv.getD i 0 = 1 / ms.getD i 0)) := by
  refine ⟨(fillMsInverse_error_aux ms 0).2, fun k h => ?_,
    fun inv h => fillMsInverse_ok_aux ms 0 inv h⟩
  obtain ⟨_, h2, h3⟩ := (fillMsInverse_error_aux ms 0).1 k h
  rw [Nat.sub_zero] at h2 h3
  exact ⟨h2, h3⟩

/-- Witness for C9: `[1, -2]` is rejected at index 1; `[2, 0]` succeeds
with reciprocals `[1/2, 0]`. -/
theorem ms2_inverse_invariant_witness :
    (∃ k, fillMsInverse [(1 : ℚ), -2] 0 = .error k)
    ∧ fillMsInverse [(2 : ℚ), 0] 0 = .ok [1/2, 0]
    ∧ ([(1 : ℚ)/2, 0].getD 1 0 = 0) := by
  refine ⟨(ms2_inverse_invariant [(1 : ℚ), -2]).1 ⟨-2, by norm_num, by norm_num⟩,
    rfl, ?_⟩
  have h := (ms2_inverse_invariant [(2 : ℚ), 0]).2.2 [1/2, 0] rfl
  exact (h.2 1 (by norm_num)).1 (by norm_num)

/-! ## Driver: `IsStageDone` / `IsRunDone`

Embedding of source lines 365-454.  `Oxs_SimState` mutable done flags and
the counters the queries read are collected in `DrvState`; driver limits
and the child-class hooks `ChildIsStageDone` / `ChildIsRunDone` (defined
in child classes outside this translation unit) are abstract parameters.
The C++ routines mutate the two states through `mutable` members; the
model threads updated copies. -/

/-- The tri-state done flags of `Oxs_SimState`. -/
inductive DoneStatus where
  | UNKNOWN : DoneStatus
  | NOT_DONE : DoneStatus
  | DONE : DoneStatus
deriving DecidableEq, Repr

/-- The per-sublattice state fields read and written by the queries. -/
structure DrvState where
  stage_done : DoneStatus
  run_done : DoneStatus
  iteration_count : ℕ
  stage_iteration_count : ℕ
  stage_number : ℕ
deriving DecidableEq, Repr

/-- Driver limits and child hooks consulted by the queries. -/
structure DrvParams where
  total_iteration_limit : ℕ
  stage_iteration_limit : List ℕ
  number_of_stages : ℕ
  childStageDone : DrvState → DrvState → Bool
  childRunDone : DrvState → DrvState → Bool

/-- Limit `stop_iteration` lookup (source lines 386-392): clamp the stage
number to the last entry of `stage_iteration_limit`. -/
def stopIteration (l : List ℕ) (sn : ℕ) : ℕ :=
  if l.length ≤ sn then l.getD (l.length - 1) 0 else l.getD sn 0

/-- Model of `YY_2LatDriver::IsStageDone` (source lines 365-412): returns the
query result together with the two updated states. -/
def isStageDone (p : DrvParams) (s1 s2 : DrvState) :
    Bool × DrvState × DrvState :=
  if s1.stage_done = .DONE ∧ s2.stage_done = .DONE then (true, s1, s2)
  else if s1.stage_done = .NOT_DONE ∧ s2.stage_done = .NOT_DONE then
    (false, s1, s2)
  else if 0 < p.total_iteration_limit
      ∧ (p.total_iteration_limit ≤ s1.iteration_count
        ∨ p.total_iteration_limit ≤ s2.iteration_count) then
    (true, { s1 with stage_done := .DONE }, { s2 with stage_done := .DONE })
  else
    let stop_iteration := stopIteration p.stage_iteration_limit s1.stage_number
    if 0 < stop_iteration ∧ stop_iteration ≤ s1.stage_iteration_count + 1 then
      (true, { s1 with stage_done := .DONE }, { s2 with stage_done := .DONE })
    else if p.childStageDone s1 s2 then
      (true, { s1 with stage_done := .DONE }, { s2 with stage_done := .DONE })
    else
      (false, { s1 with stage_done := .NOT_DONE },
        { s2 with stage_done := .NOT_DONE })

/-- The shared tail of `IsRunDone`: the child hook, then the final
both-flags write (source lines 445-453). -/
def isRunDoneTail (p : DrvParams) (s1 s2 : DrvState) :
    Bool × DrvState × DrvState :=
  if p.childRunDone s1 s2 then
    (true, { s1 with run_done := .DONE }, { s2 with run_done := .DONE })
  else
    (false, { s1 with run_done := .NOT_DONE },
      { s2 with run_done := .NOT_DONE })

/-- Model of `YY_2LatDriver::IsRunDone` (source lines 414-454); the nested
`IsStageDone` call mutates the stage flags of both states, which the
model threads through to the subsequent child check. -/
def isRunDone (p : DrvParams) (s1 s2 : DrvState) :
    Bool × DrvState × DrvState :=
  if s1.run_done = .DONE ∧ s2.run_done = .DONE then (true, s1, s2)
  else if s1.run_done = .NOT_DONE ∧ s2.run_done = .NOT_DONE then
    (false, s1, s2)
  else if 0 < p.total_iteration_limit
      ∧ (p.total_iteration_limit ≤ s1.iteration_count
        ∨ p.total_iteration_limit ≤ s2.iteration_count) then
    (true, { s1 with run_done := .DONE }, { s2 with run_done := .DONE })
  else if 0 < p.number_of_stages then
    if p.number_of_stages ≤ s1.stage_number then
      (true, { s1 with run_done := .DONE }, { s2 with run_done := .DONE })
    else if s1.stage_number + 1 = p.number_of_stages then
      let r := isStageDone p s1 s2
      if r.1 then
        (true, { r.2.1 with run_done := .DONE },
          { r.2.2 with run_done := .DONE })
      else isRunDoneTail p r.2.1 r.2.2
    else isRunDoneTail p s1 s2
  else isRunDoneTail p s1 s2

/-- C10.  The completion queries keep the cross-linked states in
agreement: `IsStageDone` returns `(b, s1', s2')` where both updated
states carry `stage_done = DONE` when `b` and `NOT_DONE` when `¬b`, with
no other field changed; `IsRunDone` returns `(b, t1, t2)` where both
updated states carry `run_done = DONE` exactly when it returns 1 and
`NOT_DONE` exactly when it returns 0. -/
theorem done_flags_synchronized (p : DrvParams) (s1 s2 : DrvState) :
    (∃ b : Bool, isStageDone p s1 s2
        = (b, { s1 with stage_done := if b then .DONE else .NOT_DONE },
            { s2 with stage_done := if b then .DONE else .NOT_DONE }))
    ∧ (∃ (b : Bool) (t1 t2 : DrvState), isRunDone p s1 s2 = (b, t1, t2)
        ∧ t1.run_done = (if b then .DONE else .NOT_DONE)
        ∧ t2.run_done = (if b then .DONE else .NOT_DONE)) := by
  constructor
  · simp only [isStageDone]
    split_ifs with h1 h2 h3 h4 h5
    · refine ⟨true, ?_⟩
      have e1 : { s1 with stage_done := DoneStatus.DONE } = s1 := by
        rw [← h1.1]
      have e2 : { s2 with stage_done := DoneStatus.DONE } = s2 := by
        rw [← h1.2]
      rw [if_pos rfl, e1, e2]
    · refine ⟨false, ?_⟩
      have e1 : { s1 with stage_done := DoneStatus.NOT_DONE } = s1 := by
        rw [← h2.1]
      have e2 : { s2 with stage_done := DoneStatus.NOT_DONE } = s2 := by
        rw [← h2.2]
      rw [if_neg (by simp), e1, e2]
    · exact ⟨true, by rw [if_pos rfl]⟩
    · exact ⟨true, by rw [if_pos rfl]⟩
    · exact ⟨true, by rw [if_pos rfl]⟩
    · exact ⟨false, by rw [if_neg (by simp)]⟩
  · simp only [isRunDone, isRunDoneTail]
    split_ifs with h1 h2 h3 h4 h5 h6 h7 h8 h9 h10
    · exact ⟨true, s1, s2, rfl, by simp [h1.1], by simp [h1.2]⟩
    · exact ⟨false, s1, s2, rfl, by simp [h2.1], by simp [h2.2]⟩
    · exact ⟨true, _, _, rfl, rfl, rfl⟩
    · exact ⟨true, _, _, rfl, rfl, rfl⟩
    · exact ⟨true, _, _, rfl, rfl, rfl⟩
    · exact ⟨true, _, _, rfl, rfl, rfl⟩
    · exact ⟨false, _, _, rfl, rfl, rfl⟩
    · exact ⟨true, _, _, rfl, rfl, rfl⟩
    · exact ⟨false, _, _, rfl, rfl, rfl⟩
    · exact ⟨true, _, _, rfl, rfl, rfl⟩
    · exact ⟨false, _, _, rfl, rfl, rfl⟩

/-! ## Adaptive step control: `YY_LLBEulerEvolve::Step`

Embedding of the accept/reject decision of `Step` (source lines 495-496,
728-768): the working allowed-error ceiling, the reject test, and the
next-step-size proposal.  The quantities computed earlier in `Step`
(`stepsize`, `max_error`, `dE`, `max_allowed_dE`, `max_dm_dt`,
`forcestep`) are inputs; a `false` first component corresponds to the
`return 0` reject path, taken before any state-advancing write. -/

/-- Constant `max_step_increase` (source line 495). -/
def max_step_increase : ℚ := 5/4

/-- Constant `max_step_decrease` (source line 496). -/
def max_step_decrease : ℚ := 1/2

/-- Ceiling `working_allowed_error` (source lines 728-741): the base value
`max_step_increase*max_error/step_headroom`, tightened in turn by the
error-rate, absolute and relative step-error controls when enabled. -/
def workingAllowedError (step_headroom max_error aer aase arse stepsize
    max_dm_dt : ℚ) : ℚ :=
  let w0 := max_step_increase * max_error / step_headroom
  let w1 := if 0 ≤ aer ∧ aer < w0 then aer else w0
  let w2 := if 0 ≤ aase ∧ aase < stepsize * w1 then aase / stepsize else w1
  if 0 ≤ arse ∧ arse * max_dm_dt < w2 then arse * max_dm_dt else w2

/-- The accept/reject decision and next-step proposal (source lines
742-768).  Returns `(accepted, next_timestep)`. -/
def stepDecision (step_headroom aer aase arse stepsize max_error dE
    max_allowed_dE max_dm_dt : ℚ) (forcestep : Bool) : Bool × ℚ :=
  let wae := workingAllowedError step_headroom max_error aer aase arse
    stepsize max_dm_dt
  let nt1 : ℚ :=
    if wae < max_error then step_headroom * wae / max_error
    else if max_allowed_dE < dE then 1/2 else 1
  if forcestep = false ∧ nt1 < 1 then
    (false, (if nt1 < max_step_decrease then max_step_decrease else nt1)
      * stepsize)
  else
    let c1 := if step_headroom * wae < max_step_increase * max_error then
      step_headroom * wae / max_error else max_step_increase
    (true, (if c1 < max_step_decrease then max_step_decrease else c1)
      * stepsize)

/-- A guarded cap keeps nonnegativity. -/
lemma ifCap_nonneg (c : Prop) [Decidable c] (v w : ℚ)
    (hv : c → 0 ≤ v) (hw : 0 ≤ w) : 0 ≤ if c then v else w := by
  split_ifs with h
  · exact hv h
  · exact hw

/-- The working allowed-error ceiling is nonnegative for positive
headroom and step size and nonnegative error inputs. -/
lemma workingAllowedError_nonneg (step_headroom max_error aer aase arse
    stepsize max_dm_dt : ℚ) (h1 : 0 < step_headroom) (h2 : 0 ≤ max_error)
    (h3 : 0 < stepsize) (h4 : 0 ≤ max_dm_dt) :
    0 ≤ workingAllowedError step_headroom max_error aer aase arse
      stepsize max_dm_dt := by
  simp only [workingAllowedError]
  exact ifCap_nonneg _ _ _ (fun hc => mul_nonneg hc.1 h4)
    (ifCap_nonneg _ _ _ (fun hc => div_nonneg hc.1 h3.le)
      (ifCap_nonneg _ _ _ (fun hc => hc.1)
        (div_nonneg (mul_nonneg (by norm_num [max_step_increase]) h2) h1.le)))

/-- C5 amended.  For a non-forced step with step-headroom in `(0, 1]`
(its default is 0.85), if the local error estimate exceeds the working
allowed-error ceiling or the observed energy change exceeds the allowed
bound, the step is rejected (`Step` returns 0 before advancing the
accepted state) and the proposed next step size lies in
`[max_step_decrease·stepsize, stepsize)`. -/
theorem step_rejection_shrinks (step_headroom aer aase arse stepsize
    max_error dE max_allowed_dE max_dm_dt : ℚ)
    (hhr0 : 0 < step_headroom) (hhr1 : step_headroom ≤ 1)
    (hss : 0 < stepsize) (hme : 0 ≤ max_error) (hmdd : 0 ≤ max_dm_dt)
    (hcond : workingAllowedError step_headroom max_error aer aase arse
        stepsize max_dm_dt < max_error ∨ max_allowed_dE < dE) :
    (stepDecision step_headroom aer aase arse stepsize max_error dE
        max_allowed_dE max_dm_dt false).1 = false
    ∧ max_step_decrease * stepsize
        ≤ (stepDecision step_headroom aer aase arse stepsize max_error dE
            max_allowed_dE max_dm_dt false).2
    ∧ (stepDecision step_headroom aer aase arse stepsize max_error dE
        max_allowed_dE max_dm_dt false).2 < stepsize := by
  have hwae := workingAllowedError_nonneg step_headroom max_error aer aase
    arse stepsize max_dm_dt hhr0 hme hss hmdd
  simp only [stepDecision]
  by_cases hA : workingAllowedError step_headroom max_error aer aase arse
      stepsize max_dm_dt < max_error
  · rw [if_pos hA]
    have hmepos : 0 < max_error := lt_of_le_of_lt hwae hA
    have hnum : step_headroom * workingAllowedError step_headroom max_error
        aer aase arse stepsize max_dm_dt < max_error := by
      calc step_headroom * workingAllowedError step_headroom max_error aer
            aase arse stepsize max_dm_dt
          ≤ 1 * workingAllowedError step_headroom max_error aer aase arse
            stepsize max_dm_dt := by
            exact mul_le_mul_of_nonneg_right hhr1 hwae
        _ = workingAllowedError step_headroom max_error aer aase arse
            stepsize max_dm_dt := one_mul _
        _ < max_error := hA
    have hnt1 : step_headroom * workingAllowedError step_headroom max_error
        aer aase arse stepsize max_dm_dt / max_error < 1 :=
      (div_lt_one hmepos).mpr hnum
    have hnt1nn : 0 ≤ step_headroom * workingAllowedError step_headroom
        max_error aer aase arse stepsize max_dm_dt / max_error :=
      div_nonneg (mul_nonneg hhr0.le hwae) hmepos.le
    rw [if_pos ⟨trivial, hnt1⟩]
    refine ⟨rfl, ?_, ?_⟩
    · by_cases hc : step_headroom * workingAllowedError step_headroom
          max_error aer aase arse stepsize max_dm_dt / max_error
          < max_step_decrease
      · rw [if_pos hc]
      · rw [if_neg hc]
        exact mul_le_mul_of_nonneg_right (le_of_not_lt hc) hss.le
    · by_cases hc : step_headroom * workingAllowedError step_headroom
          max_error aer aase arse stepsize max_dm_dt / max_error
          < max_step_decrease
      · rw [if_pos hc]
        calc max_step_decrease * stepsize < 1 * stepsize := by
              exact mul_lt_mul_of_pos_right (by norm_num [max_step_decrease])
                hss
          _ = stepsize := one_mul _
      · rw [if_neg hc]
        calc step_headroom * workingAllowedError step_headroom max_error aer
              aase arse stepsize max_dm_dt / max_error * stepsize
            < 1 * stepsize := mul_lt_mul_of_pos_right hnt1 hss
          _ = stepsize := one_mul _
  · rw [if_neg hA]
    rcases hcond with h | h
    · exact absurd h hA
    · rw [if_pos h, if_pos ⟨trivial, by norm_num⟩]
      have hlt : ¬((1 : ℚ)/2 < max_step_decrease) := by
        norm_num [max_step_decrease]
      rw [if_neg hlt]
      refine ⟨rfl, by norm_num [max_step_decrease], ?_⟩
      calc (1 : ℚ)/2 * stepsize < 1 * stepsize := by
            exact mul_lt_mul_of_pos_right (by norm_num) hss
        _ = stepsize := one_mul _

/-- C5 counterexample.  With step-headroom 2 (the constructor only
requires it to be positive), error-rate control 8/5 and local error 3,
the error exceeds the working allowed-error ceiling (8/5) yet the step is
accepted: the claim as stated fails for headroom above 1. -/
theorem step_rejection_counterexample :
    workingAllowedError 2 3 (8/5) (-1) (-1) 1 0 < 3
    ∧ (stepDecision 2 (8/5) (-1) (-1) 1 3 0 0 0 false).1 = true := by
  have hwae : workingAllowedError 2 3 (8/5) (-1) (-1) 1 0 = 8/5 := by
    simp only [workingAllowedError, max_step_increase]
    norm_num
  constructor
  · rw [hwae]
    norm_num
  · simp only [stepDecision, max_step_increase, max_step_decrease, hwae]
    norm_num

/-- Witness for the amended C5 at default headroom 0.85: local error 2
against ceiling 1 rejects the step and halves the step size. -/
theorem step_rejection_shrinks_witness :
    workingAllowedError (17/20) 2 1 (-1) (-1) 1 0 < 2
    ∧ (stepDecision (17/20) 1 (-1) (-1) 1 2 0 0 0 false).1 = false
    ∧ max_step_decrease * 1 ≤ (stepDecision (17/20) 1 (-1) (-1) 1 2 0 0 0
        false).2
    ∧ (stepDecision (17/20) 1 (-1) (-1) 1 2 0 0 0 false).2 < 1 := by
  have hwae : workingAllowedError (17/20) 2 1 (-1) (-1) 1 0 < 2 := by
    simp only [workingAllowedError, max_step_increase]
    norm_num
  exact ⟨hwae, step_rejection_shrinks (17/20) 1 (-1) (-1) 1 2 0 0 0
    (by norm_num) (by norm_num) (by norm_num) (by norm_num) (by norm_num)
    (Or.inl hwae)⟩
